import Mathlib

/-!
Shallow embedding of the alpha-model scripts in `Algorithm.Python/Alphas/`:

* `GreenblattMagicFormulaAlgorithm.py` (`MagicFormulaAlphaModel`, `SymbolData`,
  `MagicFormulaUniverseSelectionModel`),
* `LowVolatilityStockSelectionAlpha.py` (`LowVolatilitySelectionAlphaModel`),
* `MeanReversionLunchBreakAlpha.py` (`MeanReversionLunchBreakAlphaModel`),
* `TripleLeveragedETFPairVolatilityDecayAlpha.py`
  (`RebalancingTripleLeveragedETFAlphaModel`, `ETFGroup`).

Modelling conventions:

* Symbols are identifiers (naturals).  Monetary quantities, prices, ratios and
  indicator values are rationals (the scripts use floats; exact rational
  arithmetic is the standard idealisation).
* The Python built-in `sorted(..., key=k)` is a stable sort; it is embedded as a
  structural stable insertion sort `sortBy` (`reverse=True` flips the key
  comparison, which preserves the stable tie order exactly as CPython does).
* Python `dict`s are embedded as association lists in insertion order:
  assignment (`d[k] = v`) updates in place when the key is present and appends
  otherwise; `dict(pairs)` folds that assignment; `d.pop(k, None)` drops the
  (unique) binding of `k`; `list(d.keys())` is the list of first components.
* Host-engine services (`algorithm.History`, pandas statistics, the
  `RateOfChange` indicator internals, `algorithm.Time`) are passed to the
  embedded methods as explicit arguments; the logic owned by the repository — the
  filters, sorts, truncations, dictionaries and insight construction — is
  translated line by line from the Python source.
-/

/-- Security identifiers (QuantConnect `Symbol` objects), modelled as naturals. -/
abbrev SymbolId := Nat

/-- Time spans, measured in days; an hour is `1/24` of a day. -/
abbrev TimeSpan := Rat

/-- Data resolutions used by the scripts. -/
inductive Resolution
  | Daily
  | Hour
  deriving DecidableEq, Repr

/-- Embedding of `Extensions.ToTimeSpan`: the span of one bar at the given resolution. -/
def Resolution.ToTimeSpan : Resolution → TimeSpan
  | .Daily => 1
  | .Hour => 1 / 24

/-- Embedding of `Time.Multiply(span, n)`. -/
def Time.Multiply (t : TimeSpan) (n : Nat) : TimeSpan := t * n

/-- Timestamps: only the components the scripts inspect (`.month`, `.hour`,
and day-level subtraction) are modelled. -/
structure DateTime where
  month : Int := 1
  hour : Int := 0
  daysSinceEpoch : Int := 0
  deriving DecidableEq, Repr

/-- Python `timedelta`, restricted to its `.days` component. -/
structure TimeDelta where
  days : Int
  deriving DecidableEq, Repr

/-- Subtraction of timestamps, yielding a `TimeDelta` (as in
`algorithm.Time - x.SecurityReference.IPODate`). -/
def DateTime.sub (a b : DateTime) : TimeDelta :=
  ⟨a.daysSinceEpoch - b.daysSinceEpoch⟩

/-- Directions carried by insights. -/
inductive InsightDirection
  | Up
  | Down
  | Flat
  deriving DecidableEq, Repr

/-- A price insight as produced by `Insight.Price(...)`. -/
structure Insight where
  Symbol : SymbolId
  period : TimeSpan
  direction : InsightDirection
  magnitude : Rat
  confidence : Option Rat
  deriving DecidableEq, Repr

/-- Embedding of `Insight.Price(symbol, period, direction, magnitude, confidence)`. -/
def Insight.Price (s : SymbolId) (period : TimeSpan) (direction : InsightDirection)
    (magnitude : Rat) (confidence : Option Rat) : Insight :=
  { Symbol := s, period := period, direction := direction,
    magnitude := magnitude, confidence := confidence }

/-! ### Python dictionaries as association lists -/

/-- Python `d[k]` lookup (`None`-free form: `Option`-valued). -/
def dictLookup (d : List (SymbolId × β)) (k : SymbolId) : Option β :=
  (d.find? (fun p => p.1 == k)).map Prod.snd

/-- Lookup with a default value. -/
def dictLookupD (d : List (SymbolId × β)) (k : SymbolId) (v0 : β) : β :=
  (dictLookup d k).getD v0

/-- Python `d[k] = v`: update in place when `k` is bound, append otherwise. -/
def dictInsert (d : List (SymbolId × β)) (k : SymbolId) (v : β) : List (SymbolId × β) :=
  if d.any (fun p => p.1 == k) then d.map (fun p => if p.1 == k then (k, v) else p)
  else d ++ [(k, v)]

/-- Python `dict(pairs)` / a dict comprehension: fold assignment over the pairs. -/
def dictOfList (l : List (SymbolId × β)) : List (SymbolId × β) :=
  l.foldl (fun d p => dictInsert d p.1 p.2) []

/-- Python `list(d.keys())`. -/
def dictKeys (d : List (SymbolId × β)) : List SymbolId := d.map Prod.fst

/-- Python `d.pop(k, None)` restricted to its effect on the dictionary: the
binding of `k` (unique, since dict keys are unique) is removed. -/
def dictPop (d : List (SymbolId × β)) (k : SymbolId) : List (SymbolId × β) :=
  d.filter (fun p => p.1 != k)

/-! ### Stable sorting (Python `sorted`) -/

/-- Insert `a` into `l` before the first element `b` with `le a b`. -/
def insertSorted (le : α → α → Bool) (a : α) : List α → List α
  | [] => [a]
  | b :: l => if le a b then a :: b :: l else b :: insertSorted le a l

/-- Stable insertion sort; with `le a b := key a ≤ key b` this computes Python
`sorted(l, key=key)` (ties keep their original relative order). -/
def sortBy (le : α → α → Bool) : List α → List α
  | [] => []
  | a :: l => insertSorted le a (sortBy le l)

/-- Python `sorted(l, key=key)` (ascending). -/
def sortByKeyAsc (key : α → Rat) (l : List α) : List α :=
  sortBy (fun a b => decide (key a ≤ key b)) l

/-- Python `sorted(l, key=key, reverse=True)` (descending, stable). -/
def sortByKeyDesc (key : α → Rat) (l : List α) : List α :=
  sortBy (fun a b => decide (key b ≤ key a)) l

theorem insertSorted_perm (le : α → α → Bool) (a : α) (l : List α) :
    (insertSorted le a l).Perm (a :: l) := by
  induction l with
  | nil => simp [insertSorted]
  | cons b l ih =>
    simp only [insertSorted]
    split
    · exact List.Perm.refl _
    · exact (ih.cons b).trans (List.Perm.swap a b l)

theorem sortBy_perm (le : α → α → Bool) (l : List α) :
    (sortBy le l).Perm l := by
  induction l with
  | nil => simp [sortBy]
  | cons a l ih =>
    exact (insertSorted_perm le a (sortBy le l)).trans (ih.cons a)

theorem length_sortBy (le : α → α → Bool) (l : List α) :
    (sortBy le l).length = l.length :=
  (sortBy_perm le l).length_eq

theorem length_sortByKeyAsc (key : α → Rat) (l : List α) :
    (sortByKeyAsc key l).length = l.length :=
  length_sortBy _ l

theorem length_sortByKeyDesc (key : α → Rat) (l : List α) :
    (sortByKeyDesc key l).length = l.length :=
  length_sortBy _ l

/-! ## `TripleLeveragedETFPairVolatilityDecayAlpha.py` -/

/-- A pair of a bull and a bear triple-leveraged ETF (`class ETFGroup`). -/
structure ETFGroup where
  ultraLong : SymbolId
  ultraShort : SymbolId
  deriving DecidableEq, Repr

/-- A data slice handed to `Update` by the host; the model never reads it, so
any payload will do. -/
structure Slice where
  bars : List (SymbolId × Rat) := []
  deriving DecidableEq, Repr

/-- State of `RebalancingTripleLeveragedETFAlphaModel` (its `__init__` also
stores an unused `date` and the model `Name`). -/
structure RebalancingTripleLeveragedETFAlphaModel where
  ETFgroups : List ETFGroup
  date : DateTime := {}
  Name : String := "RebalancingTripleLeveragedETFAlphaModel"
  deriving DecidableEq, Repr

/-- Embedding of `RebalancingTripleLeveragedETFAlphaModel.Update`: for each ETF group,
append a Down insight for the ultra-long and a Down insight for the
ultra-short symbol, with period one day and magnitude `0.0`. -/
def RebalancingTripleLeveragedETFAlphaModel.Update
    (m : RebalancingTripleLeveragedETFAlphaModel) (_dat : Slice) : List Insight :=
  let magnitude : Rat := 0
  let period : TimeSpan := 1
  m.ETFgroups.flatMap fun group =>
    [Insight.Price group.ultraLong period .Down magnitude none,
     Insight.Price group.ultraShort period .Down magnitude none]

/-- C5: on each data tick, `RebalancingTripleLeveragedETFAlphaModel.Update`
returns one Down insight for the ultra-long symbol and one Down insight for
the ultra-short symbol of every ETF group, each with a one-day period and zero
magnitude, and the returned list does not depend on the market-data
argument. -/
theorem RebalancingTripleLeveragedETFAlphaModel.etf_update_spec
    (m : RebalancingTripleLeveragedETFAlphaModel) (d d' : Slice) :
    m.Update d = m.ETFgroups.flatMap (fun group =>
        [Insight.Price group.ultraLong 1 .Down 0 none,
         Insight.Price group.ultraShort 1 .Down 0 none])
    ∧ (∀ i ∈ m.Update d,
        i.direction = .Down ∧ i.period = 1 ∧ i.magnitude = 0)
    ∧ m.Update d = m.Update d' := by
  refine ⟨rfl, ?_, rfl⟩
  intro i hi
  simp only [Update, List.mem_flatMap, List.mem_cons, List.not_mem_nil, or_false] at hi
  obtain ⟨g, -, hg⟩ := hi
  rcases hg with h | h
  · rw [h]; exact ⟨rfl, rfl, rfl⟩
  · rw [h]; exact ⟨rfl, rfl, rfl⟩

/-! ## `GreenblattMagicFormulaAlgorithm.py`: `MagicFormulaUniverseSelectionModel` -/

/-- Embedding of `x.CompanyReference`, restricted to the consulted properties. -/
structure CompanyReference where
  CountryId : String
  PrimaryExchangeID : String
  IndustryTemplateCode : String
  deriving DecidableEq, Repr

/-- Embedding of `x.SecurityReference`, restricted to the consulted properties. -/
structure SecurityReference where
  IPODate : DateTime
  deriving DecidableEq, Repr

/-- Embedding of `x.EarningReports`, with the two consulted multi-period fields flattened. -/
structure EarningReports where
  BasicAverageSharesThreeMonths : Rat
  BasicEPSTwelveMonths : Rat
  deriving DecidableEq, Repr

/-- Embedding of `x.ValuationRatios`; `PERatioValue` models the `PERatio` property. -/
structure ValuationRatios where
  PERatioValue : Rat
  EVToEBITDA : Rat
  deriving DecidableEq, Repr

/-- Embedding of `x.OperationRatios`; `ROICOneYear` models the `ROIC.OneYear` property. -/
structure OperationRatios where
  ROICOneYear : Rat
  deriving DecidableEq, Repr

/-- A coarse-fundamental record, restricted to the consulted properties. -/
structure CoarseFundamental where
  Symbol : SymbolId
  EndTime : DateTime
  HasFundamentalData : Bool
  Volume : Rat
  Price : Rat
  DollarVolume : Rat
  deriving DecidableEq, Repr

/-- A fine-fundamental record, restricted to the consulted properties. -/
structure FineFundamental where
  Symbol : SymbolId
  CompanyReference : CompanyReference
  SecurityReference : SecurityReference
  EarningReports : EarningReports
  ValuationRatios : ValuationRatios
  OperationRatios : OperationRatios
  deriving DecidableEq, Repr

/-- Mutable state of `MagicFormulaUniverseSelectionModel`, as set up by its
`__init__`. -/
structure MagicFormulaUniverseSelectionModel where
  lastMonth : Int := -1
  dollarVolumeBySymbol : List (SymbolId × Rat) := []
  symbols : List SymbolId := []
  deriving DecidableEq, Repr

/-- Number of stocks in Coarse Universe (`self.NumberOfSymbolsCoarse`). -/
def MagicFormulaUniverseSelectionModel.NumberOfSymbolsCoarse : Nat := 500

/-- Number of sorted stocks in the fine selection subset
(`self.NumberOfSymbolsFine`). -/
def MagicFormulaUniverseSelectionModel.NumberOfSymbolsFine : Nat := 20

/-- Final number of stocks in the security list
(`self.NumberOfSymbolsInPortfolio`). -/
def MagicFormulaUniverseSelectionModel.NumberOfSymbolsInPortfolio : Nat := 10

/-- Embedding of `MagicFormulaUniverseSelectionModel.SelectCoarse(self, algorithm, coarse)`:
on an empty list or a repeated month, return the cached symbols; otherwise
filter to entries with fundamental data, positive volume and positive price,
sort by dollar volume descending, take the top `NumberOfSymbolsCoarse`, store
their dollar volumes keyed by symbol, and return (and cache) their symbols. -/
def MagicFormulaUniverseSelectionModel.SelectCoarse
    (self : MagicFormulaUniverseSelectionModel) (coarse : List CoarseFundamental) :
    MagicFormulaUniverseSelectionModel × List SymbolId :=
  match coarse with
  | [] => (self, self.symbols)
  | c0 :: _ =>
    let month := c0.EndTime.month
    if month = self.lastMonth then (self, self.symbols)
    else
      let filtered := coarse.filter fun x =>
        x.HasFundamentalData && decide (x.Volume > 0) && decide (x.Price > 0)
      let top := (sortByKeyDesc CoarseFundamental.DollarVolume filtered).take NumberOfSymbolsCoarse
      let dollarVolumeBySymbol := dictOfList (top.map fun i => (i.Symbol, i.DollarVolume))
      let symbols := dictKeys dollarVolumeBySymbol
      ({ self with lastMonth := month, dollarVolumeBySymbol := dollarVolumeBySymbol,
                   symbols := symbols }, symbols)

/-- Exact-arithmetic `math.ceil(a / b)` over the naturals; `b = 0` yields `0`.
This embeds `ceil(len(value) * percent)` with `percent = n / count` as
`ceilFrac (len * n) count` (the script computes the same quantity through
float division). -/
def ceilFrac (a b : Nat) : Nat := (a + b - 1) / b

/-- The six industry template codes enumerated by `SelectFine`. -/
def MagicFormulaUniverseSelectionModel.sectorCodes : List String :=
  ["N", "M", "U", "T", "B", "I"]

/-- Embedding of `MagicFormulaUniverseSelectionModel.SelectFine(self, algorithm, fine)`.
The stored dollar volumes are consulted with `dictLookupD` (the script indexes
`self.dollarVolumeBySymbol[x.Symbol]` directly; every fine candidate passed in
by the host was selected by `SelectCoarse`, so the key is present). -/
def MagicFormulaUniverseSelectionModel.SelectFine
    (self : MagicFormulaUniverseSelectionModel) (algorithmTime : DateTime)
    (fine : List FineFundamental) :
    MagicFormulaUniverseSelectionModel × List SymbolId :=
  let filteredFine := fine.filter fun x =>
    x.CompanyReference.CountryId == "USA"
    && (x.CompanyReference.PrimaryExchangeID == "NYS"
        || x.CompanyReference.PrimaryExchangeID == "NAS")
    && decide ((algorithmTime.sub x.SecurityReference.IPODate).days > 180)
    && decide (x.EarningReports.BasicAverageSharesThreeMonths
               * x.EarningReports.BasicEPSTwelveMonths
               * x.ValuationRatios.PERatioValue > (500000000 : Rat))
  let count := filteredFine.length
  if count = 0 then (self, [])
  else
    let myDict := sectorCodes.map fun key =>
      let value := filteredFine.filter fun x => x.CompanyReference.IndustryTemplateCode == key
      let value := sortByKeyDesc (fun x => dictLookupD self.dollarVolumeBySymbol x.Symbol 0) value
      (key, value.take (ceilFrac (value.length * NumberOfSymbolsFine) count))
    let topFine := (myDict.map Prod.snd).flatten.take NumberOfSymbolsCoarse
    let sortedByEVToEBITDA := sortByKeyDesc (fun x => x.ValuationRatios.EVToEBITDA) topFine
    let sortedByROIC := sortByKeyAsc (fun x => x.OperationRatios.ROICOneYear)
        (sortedByEVToEBITDA.take NumberOfSymbolsFine)
    let top := sortedByROIC.take NumberOfSymbolsInPortfolio
    let symbols := top.map FineFundamental.Symbol
    ({ self with symbols := symbols }, symbols)

/-- The ranking pipeline exactly as claim C1 words it: keep only securities
headquartered in the USA, traded on NYSE or NASDAQ, more than 180 days past
their IPO date, with market capitalisation (shares * EPS * P/E) greater than
5e8; take a per-sector top fraction by stored dollar volume and truncate to
500; sort by EVToEBITDA descending and keep the first 20; sort those by
one-year ROIC ascending; return the symbols of the first 10. -/
def MagicFormulaUniverseSelectionModel.SelectFineSpec
    (self : MagicFormulaUniverseSelectionModel) (algorithmTime : DateTime)
    (fine : List FineFundamental) : List SymbolId :=
  let usListed := fine.filter fun x =>
    x.CompanyReference.CountryId == "USA"
    && (x.CompanyReference.PrimaryExchangeID == "NYS"
        || x.CompanyReference.PrimaryExchangeID == "NAS")
    && decide ((algorithmTime.sub x.SecurityReference.IPODate).days > 180)
    && decide (x.EarningReports.BasicAverageSharesThreeMonths
               * x.EarningReports.BasicEPSTwelveMonths
               * x.ValuationRatios.PERatioValue > (500000000 : Rat))
  let qc500 := (sectorCodes.map fun key =>
      (sortByKeyDesc (fun x => dictLookupD self.dollarVolumeBySymbol x.Symbol 0)
          (usListed.filter fun x => x.CompanyReference.IndustryTemplateCode == key)).take
        (ceilFrac ((usListed.filter fun x =>
            x.CompanyReference.IndustryTemplateCode == key).length * NumberOfSymbolsFine)
          usListed.length)).flatten.take NumberOfSymbolsCoarse
  let byEV := (sortByKeyDesc (fun x => x.ValuationRatios.EVToEBITDA) qc500).take NumberOfSymbolsFine
  ((sortByKeyAsc (fun x => x.OperationRatios.ROICOneYear) byEV).take
      NumberOfSymbolsInPortfolio).map FineFundamental.Symbol

/-! ### Association-list lemmas -/

theorem dictInsert_of_not_mem_keys {β : Type} {d : List (SymbolId × β)} {k : SymbolId} (v : β)
    (h : k ∉ d.map Prod.fst) : dictInsert d k v = d ++ [(k, v)] := by
  unfold dictInsert
  rw [if_neg]
  simp only [List.any_eq_true, beq_iff_eq, not_exists, not_and]
  intro p hp hpk
  exact h (hpk ▸ List.mem_map_of_mem Prod.fst hp)

theorem foldl_dictInsert_of_nodup {β : Type} (l acc : List (SymbolId × β))
    (h : (acc.map Prod.fst ++ l.map Prod.fst).Nodup) :
    l.foldl (fun d p => dictInsert d p.1 p.2) acc = acc ++ l := by
  induction l generalizing acc with
  | nil => simp
  | cons p l ih =>
    have hd : List.Disjoint (acc.map Prod.fst) ((p :: l).map Prod.fst) :=
      List.disjoint_of_nodup_append h
    have hnotin : p.1 ∉ acc.map Prod.fst := by
      intro hmem
      exact hd hmem (by simp)
    have hins : dictInsert acc p.1 p.2 = acc ++ [p] := by
      rw [dictInsert_of_not_mem_keys _ hnotin]
    have hre : (acc.map Prod.fst ++ (p :: l).map Prod.fst)
        = ((acc ++ [p]).map Prod.fst ++ l.map Prod.fst) := by
      simp
    rw [List.foldl_cons, hins, ih (acc ++ [p]) (hre ▸ h)]
    simp

theorem dictOfList_of_nodup {β : Type} (l : List (SymbolId × β))
    (h : (l.map Prod.fst).Nodup) : dictOfList l = l := by
  have := foldl_dictInsert_of_nodup l [] (by simpa using h)
  simpa [dictOfList] using this

theorem nodup_map_take_sortBy (le : α → α → Bool) (f : α → γ) (l : List α) (n : Nat)
    (h : (l.map f).Nodup) : (((sortBy le l).take n).map f).Nodup := by
  have h1 : ((sortBy le l).map f).Perm (l.map f) := (sortBy_perm le l).map f
  have h2 : ((sortBy le l).map f).Nodup := h1.nodup_iff.mpr h
  exact (((sortBy le l).take_sublist n).map f).nodup h2

/-! ### C1, C3, C7 -/

/-- C3: on a non-empty coarse list whose first end-time month is new,
`SelectCoarse` returns the symbols of exactly the coarse entries with
fundamental data, positive volume and positive price, sorted by dollar volume
in descending order and truncated to `NumberOfSymbolsCoarse = 500`; in
particular at most 500 symbols are returned. -/
theorem MagicFormulaUniverseSelectionModel.SelectCoarse_spec
    (self : MagicFormulaUniverseSelectionModel)
    (c0 : CoarseFundamental) (rest : List CoarseFundamental)
    (hmonth : c0.EndTime.month ≠ self.lastMonth)
    (hnd : (((c0 :: rest).filter fun x =>
        x.HasFundamentalData && decide (x.Volume > 0) && decide (x.Price > 0)).map
        CoarseFundamental.Symbol).Nodup) :
    (self.SelectCoarse (c0 :: rest)).2 =
      ((sortByKeyDesc CoarseFundamental.DollarVolume
          ((c0 :: rest).filter fun x =>
            x.HasFundamentalData && decide (x.Volume > 0) && decide (x.Price > 0))).take
        500).map CoarseFundamental.Symbol
    ∧ (self.SelectCoarse (c0 :: rest)).2.length ≤ 500 := by
  have hnd2 : ((((sortByKeyDesc CoarseFundamental.DollarVolume
      ((c0 :: rest).filter fun x =>
        x.HasFundamentalData && decide (x.Volume > 0) && decide (x.Price > 0))).take
      500).map (fun i => (i.Symbol, i.DollarVolume))).map Prod.fst).Nodup := by
    rw [List.map_map]
    exact nodup_map_take_sortBy _ _ _ _ hnd
  have hres : (self.SelectCoarse (c0 :: rest)).2 =
      ((sortByKeyDesc CoarseFundamental.DollarVolume
          ((c0 :: rest).filter fun x =>
            x.HasFundamentalData && decide (x.Volume > 0) && decide (x.Price > 0))).take
        500).map CoarseFundamental.Symbol := by
    simp only [SelectCoarse, NumberOfSymbolsCoarse]
    rw [if_neg hmonth]
    simp only [dictKeys, dictOfList_of_nodup _ hnd2, List.map_map]
    rfl
  refine ⟨hres, ?_⟩
  rw [hres, List.length_map, List.length_take]
  exact min_le_left _ _

/-- C7: when the coarse list is empty, or the month of the first element
`EndTime` equals the stored `lastMonth`, `SelectCoarse` returns the cached
symbol list and leaves the whole model state (`lastMonth`,
`dollarVolumeBySymbol` and `symbols`) unchanged. -/
theorem MagicFormulaUniverseSelectionModel.SelectCoarse_frame
    (self : MagicFormulaUniverseSelectionModel) (coarse : List CoarseFundamental)
    (h : coarse = [] ∨ ∃ c0 rest, coarse = c0 :: rest ∧ c0.EndTime.month = self.lastMonth) :
    self.SelectCoarse coarse = (self, self.symbols) := by
  rcases h with h | ⟨c0, rest, h, hm⟩
  · subst h; rfl
  · subst h
    simp only [SelectCoarse]
    rw [if_pos hm]

/-- Closed instance of `SelectCoarse_frame` at a concrete model and coarse
list. -/
theorem MagicFormulaUniverseSelectionModel.SelectCoarse_frame_witness :
    ({ lastMonth := 3 } : MagicFormulaUniverseSelectionModel).SelectCoarse
        [{ Symbol := 7, EndTime := { month := 3 }, HasFundamentalData := true,
           Volume := 5, Price := 2, DollarVolume := 10 }]
      = ({ lastMonth := 3 }, []) :=
  MagicFormulaUniverseSelectionModel.SelectCoarse_frame _ _
    (Or.inr ⟨_, _, rfl, rfl⟩)

/-- C1: on every non-empty fine-fundamental list, `SelectFine` computes the
claimed ranking pipeline (`SelectFineSpec`) and returns at most 10 symbols. -/
theorem MagicFormulaUniverseSelectionModel.SelectFine_spec
    (self : MagicFormulaUniverseSelectionModel) (algorithmTime : DateTime)
    (fine : List FineFundamental) (hne : fine ≠ []) :
    (self.SelectFine algorithmTime fine).2 = self.SelectFineSpec algorithmTime fine
    ∧ (self.SelectFine algorithmTime fine).2.length ≤ 10 := by
  constructor
  · by_cases hz : (fine.filter fun x =>
      x.CompanyReference.CountryId == "USA"
      && (x.CompanyReference.PrimaryExchangeID == "NYS"
          || x.CompanyReference.PrimaryExchangeID == "NAS")
      && decide ((algorithmTime.sub x.SecurityReference.IPODate).days > 180)
      && decide (x.EarningReports.BasicAverageSharesThreeMonths
                 * x.EarningReports.BasicEPSTwelveMonths
                 * x.ValuationRatios.PERatioValue > (500000000 : Rat))).length = 0
    · have hfe : (fine.filter fun x =>
        x.CompanyReference.CountryId == "USA"
        && (x.CompanyReference.PrimaryExchangeID == "NYS"
            || x.CompanyReference.PrimaryExchangeID == "NAS")
        && decide ((algorithmTime.sub x.SecurityReference.IPODate).days > 180)
        && decide (x.EarningReports.BasicAverageSharesThreeMonths
                   * x.EarningReports.BasicEPSTwelveMonths
                   * x.ValuationRatios.PERatioValue > (500000000 : Rat))) = [] :=
        List.length_eq_zero.mp hz
      simp only [SelectFine, SelectFineSpec, hz, hfe, if_pos]
      simp [sortByKeyDesc, sortByKeyAsc, sortBy, sectorCodes]
    · simp only [SelectFine, SelectFineSpec]
      rw [if_neg hz]
      simp only [List.map_map, Function.comp_def, length_sortByKeyDesc]
  · simp only [SelectFine]
    split
    · simp
    · simp only [NumberOfSymbolsInPortfolio, List.length_map, List.length_take]
      exact min_le_left _ _

/-- Closed instance of `SelectFine_spec` at a concrete model and fine list. -/
theorem MagicFormulaUniverseSelectionModel.SelectFine_spec_witness :
    (({} : MagicFormulaUniverseSelectionModel).SelectFine {} [{
        Symbol := 4,
        CompanyReference := { CountryId := "USA", PrimaryExchangeID := "NYS",
                              IndustryTemplateCode := "N" },
        SecurityReference := { IPODate := {} },
        EarningReports := { BasicAverageSharesThreeMonths := 1,
                            BasicEPSTwelveMonths := 1 },
        ValuationRatios := { PERatioValue := 1, EVToEBITDA := 1 },
        OperationRatios := { ROICOneYear := 1 } }]).2
      = ({} : MagicFormulaUniverseSelectionModel).SelectFineSpec {} [{
        Symbol := 4,
        CompanyReference := { CountryId := "USA", PrimaryExchangeID := "NYS",
                              IndustryTemplateCode := "N" },
        SecurityReference := { IPODate := {} },
        EarningReports := { BasicAverageSharesThreeMonths := 1,
                            BasicEPSTwelveMonths := 1 },
        ValuationRatios := { PERatioValue := 1, EVToEBITDA := 1 },
        OperationRatios := { ROICOneYear := 1 } }]
    ∧ (({} : MagicFormulaUniverseSelectionModel).SelectFine {} [{
        Symbol := 4,
        CompanyReference := { CountryId := "USA", PrimaryExchangeID := "NYS",
                              IndustryTemplateCode := "N" },
        SecurityReference := { IPODate := {} },
        EarningReports := { BasicAverageSharesThreeMonths := 1,
                            BasicEPSTwelveMonths := 1 },
        ValuationRatios := { PERatioValue := 1, EVToEBITDA := 1 },
        OperationRatios := { ROICOneYear := 1 } }]).2.length ≤ 10 :=
  MagicFormulaUniverseSelectionModel.SelectFine_spec _ _ _ (by simp)

/-- Closed instance of `SelectCoarse_spec`: the month is new and the filtered
symbols are distinct, so at most 500 symbols come back. -/
theorem MagicFormulaUniverseSelectionModel.SelectCoarse_spec_witness :
    ((3 : Int) ≠ (-1 : Int))
    ∧ ((({} : MagicFormulaUniverseSelectionModel).SelectCoarse
        [{ Symbol := 7, EndTime := { month := 3 }, HasFundamentalData := true,
           Volume := 5, Price := 2, DollarVolume := 10 }]).2.length ≤ 500) :=
  ⟨by decide,
   (MagicFormulaUniverseSelectionModel.SelectCoarse_spec {}
     { Symbol := 7, EndTime := { month := 3 }, HasFundamentalData := true,
       Volume := 5, Price := 2, DollarVolume := 10 } []
     (by decide) (by decide)).2⟩

/-! ## `GreenblattMagicFormulaAlgorithm.py`: `MagicFormulaAlphaModel` -/

/-- Observable state of the host `RateOfChange` indicator attached to a
symbol: its sample count, readiness flag and current value. -/
structure RocState where
  Samples : Nat
  IsReady : Bool
  CurrentValue : Rat
  deriving DecidableEq, Repr

/-- Embedding of `class SymbolData`: the per-symbol record kept by `MagicFormulaAlphaModel`
(`self.Symbol`, the `ROC` indicator, and `self.previous`, the sample count
seen at the last `CanEmit` check; the host-side `Consolidator` handle has no
observable state here). -/
structure SymbolData where
  Symbol : SymbolId
  ROC : RocState
  previous : Nat
  deriving DecidableEq, Repr

/-- Embedding of `SymbolData.__init__(symbol, lookback)` followed by
`RegisterIndicators`/`WarmUpIndicators`, which leave the host indicator in
state `roc`; `previous` starts at `0`. -/
def SymbolData.init (symbol : SymbolId) (roc : RocState) : SymbolData :=
  { Symbol := symbol, ROC := roc, previous := 0 }

/-- Embedding of `SymbolData.CanEmit` property: `False` when the sample count equals the
stored `previous`; otherwise overwrite `previous` with the current count and
report the readiness of the indicator.  The updated record is returned alongside
(the Python property mutates `self.previous`). -/
def SymbolData.CanEmit (sd : SymbolData) : Bool × SymbolData :=
  if sd.previous = sd.ROC.Samples then (false, sd)
  else (sd.ROC.IsReady, { sd with previous := sd.ROC.Samples })

/-- Embedding of `SymbolData.Return` property: `float(self.ROC.Current.Value)`. -/
def SymbolData.Return (sd : SymbolData) : Rat := sd.ROC.CurrentValue

/-- State of `MagicFormulaAlphaModel`, as set up by its `__init__` with no
keyword arguments (`lookback = 1`, daily resolution, and the derived
prediction interval). -/
structure MagicFormulaAlphaModel where
  lookback : Nat := 1
  resolution : Resolution := .Daily
  predictionInterval : TimeSpan := Time.Multiply Resolution.Daily.ToTimeSpan 1
  symbolDataBySymbol : List (SymbolId × SymbolData) := []
  deriving DecidableEq, Repr

/-- Embedding of `MagicFormulaAlphaModel.Update(self, algorithm, data)`: for each tracked
symbol whose `CanEmit` fires, append an Up insight carrying that symbol on
its current ROC value; `CanEmit` mutates the `previous` field of each record, so the
updated model is returned alongside the insights. -/
def MagicFormulaAlphaModel.Update (m : MagicFormulaAlphaModel) :
    List Insight × MagicFormulaAlphaModel :=
  let step := m.symbolDataBySymbol.map fun p =>
    let r := p.2.CanEmit
    ((p.1, r.2),
     if r.1 then [Insight.Price p.1 m.predictionInterval .Up r.2.Return none] else [])
  ((step.map Prod.snd).flatten, { m with symbolDataBySymbol := step.map Prod.fst })

/-- Embedding of `MagicFormulaAlphaModel.OnSecuritiesChanged(self, algorithm, changes)`.
Host interactions are explicit arguments: `removedSecurities` lists the
removed symbols, `history` is the retrieved history for the added securities
(one entry per ticker, pandas `empty` iff the list is empty), and
`warm symbol rows` is the indicator state after registration and warm-up.
Removed symbols are popped first; then, when history is non-empty, a fresh
`SymbolData` is appended for every history ticker not already tracked.
`addSymbolData` is the body of that addition loop. -/
def MagicFormulaAlphaModel.addSymbolData (warm : SymbolId → List Rat → RocState)
    (d : List (SymbolId × SymbolData)) (t : SymbolId × List Rat) :
    List (SymbolId × SymbolData) :=
  if (dictKeys d).contains t.1 then d
  else d ++ [(t.1, SymbolData.init t.1 (warm t.1 t.2))]

/-- Embedding of `MagicFormulaAlphaModel.OnSecuritiesChanged` proper: pop the removed
symbols, then (when history is non-empty) run the addition loop. -/
def MagicFormulaAlphaModel.OnSecuritiesChanged
    (m : MagicFormulaAlphaModel) (removedSecurities : List SymbolId)
    (history : List (SymbolId × List Rat)) (warm : SymbolId → List Rat → RocState) :
    MagicFormulaAlphaModel :=
  let afterRemovals := removedSecurities.foldl (fun d r => dictPop d r) m.symbolDataBySymbol
  if history.isEmpty then { m with symbolDataBySymbol := afterRemovals }
  else
    let final := history.foldl (addSymbolData warm) afterRemovals
    { m with symbolDataBySymbol := final }

/-! ## `LowVolatilityStockSelectionAlpha.py` -/

/-- An entry of `algorithm.ActiveSecurities.Values`, restricted to the
consulted properties (`MeanReversionLunchBreakAlpha.py` additionally reads
`Open` and `Close`). -/
structure Security where
  Symbol : SymbolId
  HasData : Bool
  Open : Rat := 0
  Close : Rat := 0
  deriving DecidableEq, Repr

/-- State of `LowVolatilitySelectionAlphaModel`, as set up by its `__init__`
with no keyword arguments. -/
structure LowVolatilitySelectionAlphaModel where
  lookback : Nat := 252
  numberOfStocks : Nat := 10
  resolution : Resolution := .Daily
  predictionInterval : TimeSpan := Time.Multiply Resolution.Daily.ToTimeSpan 1
  deriving DecidableEq, Repr

/-- Embedding of `LowVolatilitySelectionAlphaModel.Update(self, algorithm, data)`.
Host interactions are explicit arguments: `histEmpty` is `hist.empty` for the
retrieved price history, and `stdDev s` is the standard deviation of symbol
`s` daily close-price percent changes as computed by the pandas pipeline
(`hist.close.unstack(level=0).pct_change().std()`), so that
`dict(zip(symbols, stdDev))` pairs each symbol with its own value.  The model
collects the symbols of active securities that have data, skips the cycle on
empty history, ranks the symbols by volatility ascending, keeps
`min(len(symbolsVol), numberOfStocks)` of them and emits an Up insight for
each. -/
def LowVolatilitySelectionAlphaModel.Update
    (self : LowVolatilitySelectionAlphaModel) (activeSecurities : List Security)
    (histEmpty : Bool) (stdDev : SymbolId → Rat) : List Insight :=
  let symbols := (activeSecurities.filter Security.HasData).map Security.Symbol
  if histEmpty then []
  else
    let symbolsVol := dictOfList (symbols.zip (symbols.map stdDev))
    let number_of_stocks := min symbolsVol.length self.numberOfStocks
    let lowVol := dictOfList ((sortByKeyAsc Prod.snd symbolsVol).take number_of_stocks)
    lowVol.map fun kv => Insight.Price kv.1 self.predictionInterval .Up 0 none

/-! ## `MeanReversionLunchBreakAlpha.py` -/

/-- State of `MeanReversionLunchBreakAlphaModel`, as set up by its `__init__`
with no keyword arguments (hourly resolution, `lookback = 1`; the `__init__`
also creates an empty `symbolDataBySymbol` dictionary that no method ever
reads or writes, so it is not modelled). -/
structure MeanReversionLunchBreakAlphaModel where
  lookback : Nat := 1
  resolution : Resolution := .Hour
  predictionInterval : TimeSpan := Time.Multiply Resolution.Hour.ToTimeSpan 1
  deriving DecidableEq, Repr

/-- Loop body building `symbolsReturn`: securities with data and a nonzero
open price contribute `Close / Open - 1` under their symbol; a zero open
price is skipped to avoid division by zero. -/
def MeanReversionLunchBreakAlphaModel.symbolsReturnStep
    (d : List (SymbolId × Rat)) (security : Security) : List (SymbolId × Rat) :=
  if security.HasData then
    if security.Open ≠ 0 then
      dictInsert d security.Symbol (security.Close / security.Open - 1)
    else d
  else d

/-- The `symbolsReturn` dictionary built by
`MeanReversionLunchBreakAlphaModel.Update` from the active securities. -/
def MeanReversionLunchBreakAlphaModel.symbolsReturn
    (activeSecurities : List Security) : List (SymbolId × Rat) :=
  activeSecurities.foldl symbolsReturnStep []

/-- Embedding of `MeanReversionLunchBreakAlphaModel.Update(self, algorithm, data)`: outside
the noon hour nothing is emitted; otherwise the loop over
`symbolsReturn.items()` returns from its first iteration, emitting a Down
insight when the pre-lunch return of that first security is positive and an Up
insight otherwise. -/
def MeanReversionLunchBreakAlphaModel.Update
    (self : MeanReversionLunchBreakAlphaModel) (algorithmTimeHour : Int)
    (activeSecurities : List Security) : List Insight :=
  if algorithmTimeHour ≠ 12 then []
  else
    match symbolsReturn activeSecurities with
    | [] => []
    | (key, value) :: _ =>
      if value > 0 then [Insight.Price key self.predictionInterval .Down 0 none]
      else [Insight.Price key self.predictionInterval .Up 0 none]

/-! ### C2, C4 -/

theorem zip_map_self (f : α → β) (l : List α) :
    l.zip (l.map f) = l.map fun a => (a, f a) := by
  induction l with
  | nil => rfl
  | cons a l ih => simp [ih]

/-- C2: when the retrieved price history is non-empty,
`LowVolatilitySelectionAlphaModel.Update` sorts the symbols of the active
securities that have data by their volatility value ascending, keeps
`min(len(symbolsVol), numberOfStocks)` of them, and emits exactly that many
insights, each Up with the prediction interval of the model. -/
theorem LowVolatilitySelectionAlphaModel.lowvol_update_spec
    (self : LowVolatilitySelectionAlphaModel) (act : List Security) (stdDev : SymbolId → Rat)
    (hnd : ((act.filter Security.HasData).map Security.Symbol).Nodup) :
    self.Update act false stdDev
      = ((sortByKeyAsc Prod.snd
            (((act.filter Security.HasData).map Security.Symbol).map fun s => (s, stdDev s))).take
          (min ((act.filter Security.HasData).map Security.Symbol).length self.numberOfStocks)).map
          (fun kv => Insight.Price kv.1 self.predictionInterval .Up 0 none)
    ∧ (self.Update act false stdDev).length
        = min ((act.filter Security.HasData).map Security.Symbol).length self.numberOfStocks
    ∧ (∀ i ∈ self.Update act false stdDev,
        i.direction = .Up ∧ i.period = self.predictionInterval) := by
  have hzip : ((act.filter Security.HasData).map Security.Symbol).zip
        (((act.filter Security.HasData).map Security.Symbol).map stdDev)
      = ((act.filter Security.HasData).map Security.Symbol).map fun s => (s, stdDev s) :=
    zip_map_self stdDev _
  have hkeys : ((((act.filter Security.HasData).map Security.Symbol).map
      fun s => (s, stdDev s)).map Prod.fst)
      = (act.filter Security.HasData).map Security.Symbol := by
    rw [List.map_map]
    simp [Function.comp_def]
  have hd1 : dictOfList (((act.filter Security.HasData).map Security.Symbol).zip
        (((act.filter Security.HasData).map Security.Symbol).map stdDev))
      = ((act.filter Security.HasData).map Security.Symbol).map fun s => (s, stdDev s) := by
    rw [hzip]
    exact dictOfList_of_nodup _ (by rw [hkeys]; exact hnd)
  have hnd2 : ((((sortByKeyAsc Prod.snd
      (((act.filter Security.HasData).map Security.Symbol).map fun s => (s, stdDev s))).take
        (min (act.filter Security.HasData).length self.numberOfStocks)).map Prod.fst)).Nodup :=
    nodup_map_take_sortBy _ Prod.fst _ _ (by rw [hkeys]; exact hnd)
  have hd2 : dictOfList ((sortByKeyAsc Prod.snd
        (((act.filter Security.HasData).map Security.Symbol).map fun s => (s, stdDev s))).take
          (min (act.filter Security.HasData).length self.numberOfStocks))
      = (sortByKeyAsc Prod.snd
        (((act.filter Security.HasData).map Security.Symbol).map fun s => (s, stdDev s))).take
          (min (act.filter Security.HasData).length self.numberOfStocks) :=
    dictOfList_of_nodup _ hnd2
  have hupd : self.Update act false stdDev
      = ((sortByKeyAsc Prod.snd
            (((act.filter Security.HasData).map Security.Symbol).map fun s => (s, stdDev s))).take
          (min ((act.filter Security.HasData).map Security.Symbol).length self.numberOfStocks)).map
          (fun kv => Insight.Price kv.1 self.predictionInterval .Up 0 none) := by
    simp only [Update, Bool.false_eq_true, if_false, hd1, List.length_map, hd2]
  refine ⟨hupd, ?_, ?_⟩
  · rw [hupd]
    simp only [List.length_map, List.length_take, length_sortByKeyAsc]
    exact Nat.min_eq_left (Nat.min_le_left _ _)
  · intro i hi
    rw [hupd] at hi
    rcases List.mem_map.mp hi with ⟨kv, -, hkv⟩
    rw [← hkv]
    exact ⟨rfl, rfl⟩

/-- Closed instance of `lowvol_update_spec`: two distinct active securities with
data, non-empty history. -/
theorem LowVolatilitySelectionAlphaModel.lowvol_update_spec_witness :
    (([{ Symbol := 1, HasData := true }, { Symbol := 2, HasData := true }].filter
        Security.HasData).map Security.Symbol).Nodup
    ∧ (({} : LowVolatilitySelectionAlphaModel).Update
        [{ Symbol := 1, HasData := true }, { Symbol := 2, HasData := true }] false
        (fun s => s)).length
      = min (([{ Symbol := 1, HasData := true }, { Symbol := 2, HasData := true }].filter
          Security.HasData).map Security.Symbol).length
        ({} : LowVolatilitySelectionAlphaModel).numberOfStocks :=
  ⟨by decide,
   (LowVolatilitySelectionAlphaModel.lowvol_update_spec {}
     [{ Symbol := 1, HasData := true }, { Symbol := 2, HasData := true }]
     (fun s => s) (by decide)).2.1⟩

theorem foldl_dictPop_eq_filter {β : Type} (removed : List SymbolId) (d : List (SymbolId × β)) :
    removed.foldl (fun d r => dictPop d r) d
      = d.filter (fun p => !decide (p.1 ∈ removed)) := by
  induction removed generalizing d with
  | nil => simp
  | cons r rs ih =>
    rw [List.foldl_cons, ih]
    unfold dictPop
    rw [List.filter_filter]
    congr 1
    funext p
    by_cases h1 : p.1 = r
    · simp [h1]
    · by_cases h2 : p.1 ∈ rs <;> simp [h1, h2]

/-- C4: when the retrieved history is empty the cycle is skipped:
`LowVolatilitySelectionAlphaModel.Update` returns the empty insight list, and
`MagicFormulaAlphaModel.OnSecuritiesChanged` adds no entry to
`symbolDataBySymbol` (its dictionary is exactly the old one with the removed
securities popped; with nothing removed, the model is untouched). -/
theorem emptyHistorySkipsCycle
    (self : LowVolatilitySelectionAlphaModel) (act : List Security) (stdDev : SymbolId → Rat)
    (m : MagicFormulaAlphaModel) (removedSecurities : List SymbolId)
    (warm : SymbolId → List Rat → RocState) :
    self.Update act true stdDev = []
    ∧ (m.OnSecuritiesChanged removedSecurities [] warm).symbolDataBySymbol
        = m.symbolDataBySymbol.filter (fun p => !decide (p.1 ∈ removedSecurities))
    ∧ m.OnSecuritiesChanged [] [] warm = m := by
  refine ⟨rfl, ?_, ?_⟩
  · simp only [MagicFormulaAlphaModel.OnSecuritiesChanged, List.isEmpty_nil, if_true]
    exact foldl_dictPop_eq_filter _ _
  · simp only [MagicFormulaAlphaModel.OnSecuritiesChanged, List.isEmpty_nil, if_true,
      List.foldl_nil]

/-! ### C6, C9 -/

theorem mem_dictInsert {β : Type} {d : List (SymbolId × β)} {k : SymbolId} {v : β} :
    ∀ p ∈ dictInsert d k v, p ∈ d ∨ p = (k, v) := by
  intro p hp
  unfold dictInsert at hp
  split at hp
  · rcases List.mem_map.mp hp with ⟨q, hq, hqe⟩
    by_cases h : (q.1 == k) = true
    · rw [if_pos h] at hqe
      exact Or.inr hqe.symm
    · rw [if_neg h] at hqe
      exact Or.inl (hqe ▸ hq)
  · rcases List.mem_append.mp hp with h | h
    · exact Or.inl h
    · exact Or.inr (by simpa using h)

theorem symbolsReturn_go_mem (act : List Security) (d0 : List (SymbolId × Rat)) :
    ∀ p ∈ act.foldl MeanReversionLunchBreakAlphaModel.symbolsReturnStep d0,
      p ∈ d0 ∨ ∃ sec ∈ act, sec.Symbol = p.1 ∧ sec.HasData = true ∧ sec.Open ≠ 0
        ∧ p.2 = sec.Close / sec.Open - 1 := by
  induction act generalizing d0 with
  | nil => exact fun p hp => Or.inl hp
  | cons sec rest ih =>
    intro p hp
    rw [List.foldl_cons] at hp
    rcases ih _ p hp with h | ⟨sec', hsec', hprops⟩
    · unfold MeanReversionLunchBreakAlphaModel.symbolsReturnStep at h
      split at h
      · split at h
        · rcases mem_dictInsert p h with h' | h'
          · exact Or.inl h'
          · subst h'
            refine Or.inr ⟨sec, List.mem_cons_self sec rest, rfl, ?_, ?_, rfl⟩
            · assumption
            · assumption
        · exact Or.inl h
      · exact Or.inl h
    · exact Or.inr ⟨sec', List.mem_cons_of_mem _ hsec', hprops⟩

theorem symbolsReturn_mem (act : List Security) :
    ∀ p ∈ MeanReversionLunchBreakAlphaModel.symbolsReturn act,
      ∃ sec ∈ act, sec.Symbol = p.1 ∧ sec.HasData = true ∧ sec.Open ≠ 0
        ∧ p.2 = sec.Close / sec.Open - 1 := by
  intro p hp
  rcases symbolsReturn_go_mem act [] p hp with h | h
  · cases h
  · exact h

theorem MeanReversionLunchBreakAlphaModel.update_not_noon
    (self : MeanReversionLunchBreakAlphaModel) (hour : Int) (act : List Security)
    (h : hour ≠ 12) : self.Update hour act = [] := by
  unfold MeanReversionLunchBreakAlphaModel.Update
  rw [if_pos h]

theorem MeanReversionLunchBreakAlphaModel.update_noon_nil
    (self : MeanReversionLunchBreakAlphaModel) (hour : Int) (act : List Security)
    (h : hour = 12) (hsr : MeanReversionLunchBreakAlphaModel.symbolsReturn act = []) :
    self.Update hour act = [] := by
  unfold MeanReversionLunchBreakAlphaModel.Update
  rw [if_neg (not_not_intro h), hsr]

theorem MeanReversionLunchBreakAlphaModel.update_noon_cons
    (self : MeanReversionLunchBreakAlphaModel) (hour : Int) (act : List Security)
    (key : SymbolId) (value : Rat) (rest : List (SymbolId × Rat))
    (h : hour = 12)
    (hsr : MeanReversionLunchBreakAlphaModel.symbolsReturn act = (key, value) :: rest) :
    self.Update hour act
      = if value > 0 then [Insight.Price key self.predictionInterval .Down 0 none]
        else [Insight.Price key self.predictionInterval .Up 0 none] := by
  unfold MeanReversionLunchBreakAlphaModel.Update
  rw [if_neg (not_not_intro h), hsr]

/-- C6: `MeanReversionLunchBreakAlphaModel.Update` returns at most one
insight: the empty list when the hour is not 12, and otherwise — because the
loop over `symbolsReturn.items()` returns from its first iteration — a single
insight for the first computed entry, Down when its return is positive and Up
otherwise, even when several active securities have data. -/
theorem MeanReversionLunchBreakAlphaModel.lunchbreak_update_spec
    (self : MeanReversionLunchBreakAlphaModel) (hour : Int) (act : List Security) :
    (self.Update hour act).length ≤ 1
    ∧ (hour ≠ 12 → self.Update hour act = [])
    ∧ (hour = 12 → ∀ key value rest,
        symbolsReturn act = (key, value) :: rest →
        self.Update hour act
          = if value > 0 then [Insight.Price key self.predictionInterval .Down 0 none]
            else [Insight.Price key self.predictionInterval .Up 0 none]) := by
  refine ⟨?_, ?_, ?_⟩
  · unfold Update
    split
    · simp
    · split
      · simp
      · split <;> simp
  · exact update_not_noon self hour act
  · intro h key value rest hsr
    exact update_noon_cons self hour act key value rest h hsr

/-- Closed instance of `lunchbreak_update_spec` at noon with one active security whose
pre-lunch return is computed. -/
theorem MeanReversionLunchBreakAlphaModel.lunchbreak_update_spec_witness :
    ((12 : Int) = 12)
    ∧ (({} : MeanReversionLunchBreakAlphaModel).Update 12
        [{ Symbol := 1, HasData := true, Open := 2, Close := 3 }]
      = if ((3 : Rat) / 2 - 1) > 0
        then [Insight.Price 1 ({} : MeanReversionLunchBreakAlphaModel).predictionInterval
          .Down 0 none]
        else [Insight.Price 1 ({} : MeanReversionLunchBreakAlphaModel).predictionInterval
          .Up 0 none]) :=
  ⟨rfl,
   (MeanReversionLunchBreakAlphaModel.lunchbreak_update_spec {} 12
     [{ Symbol := 1, HasData := true, Open := 2, Close := 3 }]).2.2 rfl
     1 ((3 : Rat) / 2 - 1) [] rfl⟩

/-- C9: the pre-lunch return `Close / Open - 1` is computed only for
securities with a nonzero open price (every entry of `symbolsReturn` stems
from such a security), and — when active securities carry distinct symbols —
a security with a zero open price neither appears in `symbolsReturn` nor
receives an insight. -/
theorem MeanReversionLunchBreakAlphaModel.no_div_by_zero
    (act : List Security) (hnd : (act.map Security.Symbol).Nodup) :
    (∀ p ∈ MeanReversionLunchBreakAlphaModel.symbolsReturn act,
       ∃ sec ∈ act, sec.Symbol = p.1 ∧ sec.HasData = true ∧ sec.Open ≠ 0
         ∧ p.2 = sec.Close / sec.Open - 1)
    ∧ ∀ sec ∈ act, sec.Open = 0 →
        sec.Symbol ∉ (MeanReversionLunchBreakAlphaModel.symbolsReturn act).map Prod.fst
        ∧ ∀ (self : MeanReversionLunchBreakAlphaModel) (hour : Int),
            ∀ i ∈ self.Update hour act, i.Symbol ≠ sec.Symbol := by
  refine ⟨symbolsReturn_mem act, ?_⟩
  intro sec hsec hopen
  have hkey : sec.Symbol ∉ (MeanReversionLunchBreakAlphaModel.symbolsReturn act).map Prod.fst := by
    intro hmem
    rcases List.mem_map.mp hmem with ⟨p, hp, hpe⟩
    rcases symbolsReturn_mem act p hp with ⟨sec', hsec', hsym, -, hopen', -⟩
    have : sec' = sec := List.inj_on_of_nodup_map hnd hsec' hsec (by rw [hsym, hpe])
    exact hopen' (this ▸ hopen)
  refine ⟨hkey, ?_⟩
  intro self hour i hi
  by_cases h12 : hour = 12
  · cases hsr : MeanReversionLunchBreakAlphaModel.symbolsReturn act with
    | nil =>
      rw [MeanReversionLunchBreakAlphaModel.update_noon_nil self hour act h12 hsr] at hi
      cases hi
    | cons hd rest =>
      obtain ⟨key, value⟩ := hd
      rw [MeanReversionLunchBreakAlphaModel.update_noon_cons self hour act
        key value rest h12 hsr] at hi
      have hkeymem : key ∈ (MeanReversionLunchBreakAlphaModel.symbolsReturn act).map Prod.fst := by
        rw [hsr]
        exact List.mem_map_of_mem Prod.fst (List.mem_cons_self _ _)
      have hne : key ≠ sec.Symbol := fun h => hkey (h ▸ hkeymem)
      split at hi <;>
        · rcases List.mem_singleton.mp hi with rfl
          exact hne
  · rw [MeanReversionLunchBreakAlphaModel.update_not_noon self hour act h12] at hi
    cases hi

/-- Closed instance of `no_div_by_zero`: a zero-open security contributes no
entry to `symbolsReturn`. -/
theorem MeanReversionLunchBreakAlphaModel.no_div_by_zero_witness :
    (([{ Symbol := 3, HasData := true, Open := 0, Close := 5 }] :
        List Security).map Security.Symbol).Nodup
    ∧ (3 : SymbolId) ∉ (MeanReversionLunchBreakAlphaModel.symbolsReturn
        [{ Symbol := 3, HasData := true, Open := 0, Close := 5 }]).map Prod.fst :=
  ⟨by decide,
   ((MeanReversionLunchBreakAlphaModel.no_div_by_zero _ (by decide)).2
     { Symbol := 3, HasData := true, Open := 0, Close := 5 }
     (List.mem_singleton.mpr rfl) rfl).1⟩

/-! ### C10 -/

theorem SymbolData.canEmit_symbol (sd : SymbolData) : sd.CanEmit.2.Symbol = sd.Symbol := by
  unfold CanEmit
  split <;> rfl

theorem SymbolData.canEmit_roc (sd : SymbolData) : sd.CanEmit.2.ROC = sd.ROC := by
  unfold CanEmit
  split <;> rfl

theorem SymbolData.canEmit_previous (sd : SymbolData) :
    sd.CanEmit.2.previous = sd.ROC.Samples := by
  unfold CanEmit
  split
  · next h => exact h
  · rfl

theorem MagicFormulaAlphaModel.update_dict (m : MagicFormulaAlphaModel) :
    m.Update.2.symbolDataBySymbol
      = m.symbolDataBySymbol.map (fun p => (p.1, p.2.CanEmit.2)) := by
  simp only [MagicFormulaAlphaModel.Update]
  rw [List.map_map]
  rfl

theorem MagicFormulaAlphaModel.update_insights_nil (m : MagicFormulaAlphaModel)
    (h : ∀ p ∈ m.symbolDataBySymbol, p.2.previous = p.2.ROC.Samples) :
    m.Update.1 = [] := by
  simp only [MagicFormulaAlphaModel.Update]
  rw [List.map_map, List.flatten_eq_nil_iff]
  intro ys hys
  rcases List.mem_map.mp hys with ⟨p, hp, hpe⟩
  have hfalse : p.2.CanEmit.1 = false := by
    unfold SymbolData.CanEmit
    rw [if_pos (h p hp)]
  rw [← hpe]
  simp [Function.comp_def, hfalse]

/-- C10: `SymbolData.CanEmit` returns true exactly when the ROC sample count
differs from the count stored at the previous check and the indicator is
ready; every check leaves `previous` equal to the current sample count, so a
second `MagicFormulaAlphaModel.Update` with no new indicator samples emits no
insight at all. -/
theorem SymbolData.CanEmit_spec (sd : SymbolData) (m : MagicFormulaAlphaModel) :
    (sd.CanEmit.1 = true ↔ (sd.previous ≠ sd.ROC.Samples ∧ sd.ROC.IsReady = true))
    ∧ sd.CanEmit.2.previous = sd.ROC.Samples
    ∧ m.Update.2.Update.1 = [] := by
  refine ⟨?_, canEmit_previous sd, ?_⟩
  · unfold CanEmit
    split
    · next h => simp [h]
    · next h => simp [h]
  · apply MagicFormulaAlphaModel.update_insights_nil
    rw [MagicFormulaAlphaModel.update_dict]
    intro p hp
    rcases List.mem_map.mp hp with ⟨q, -, hq⟩
    rw [← hq]
    show q.2.CanEmit.2.previous = q.2.CanEmit.2.ROC.Samples
    rw [canEmit_previous, canEmit_roc]

/-! ### C8 -/

/-- The bookkeeping invariant of C8: every key of the dictionary maps to a
`SymbolData` record constructed for that same symbol. -/
def WellKeyed (d : List (SymbolId × SymbolData)) : Prop :=
  ∀ p ∈ d, p.2.Symbol = p.1

theorem wellKeyed_filter (d : List (SymbolId × SymbolData)) (q : SymbolId × SymbolData → Bool)
    (h : WellKeyed d) : WellKeyed (d.filter q) :=
  fun p hp => h p (List.mem_filter.mp hp).1

theorem addLoop_wellKeyed (warm : SymbolId → List Rat → RocState)
    (history : List (SymbolId × List Rat)) (d : List (SymbolId × SymbolData))
    (h : WellKeyed d) :
    WellKeyed (history.foldl (MagicFormulaAlphaModel.addSymbolData warm) d) := by
  induction history generalizing d with
  | nil => exact h
  | cons t ts ih =>
    rw [List.foldl_cons]
    apply ih
    unfold MagicFormulaAlphaModel.addSymbolData
    split
    · exact h
    · intro p hp
      rcases List.mem_append.mp hp with hp | hp
      · exact h p hp
      · have hpe : p = (t.1, SymbolData.init t.1 (warm t.1 t.2)) := by simpa using hp
        rw [hpe]
        rfl

theorem addLoop_keys (warm : SymbolId → List Rat → RocState)
    (history : List (SymbolId × List Rat)) (d : List (SymbolId × SymbolData)) (s : SymbolId)
    (hs : s ∈ dictKeys (history.foldl (MagicFormulaAlphaModel.addSymbolData warm) d)) :
    s ∈ dictKeys d ∨ s ∈ history.map Prod.fst := by
  induction history generalizing d with
  | nil => exact Or.inl hs
  | cons t ts ih =>
    rw [List.foldl_cons] at hs
    rcases ih _ hs with h | h
    · unfold MagicFormulaAlphaModel.addSymbolData at h
      split at h
      · exact Or.inl h
      · unfold dictKeys at h
        rw [List.map_append] at h
        rcases List.mem_append.mp h with h | h
        · exact Or.inl h
        · have : s = t.1 := by simpa using h
          subst this
          exact Or.inr (by simp)
    · exact Or.inr (List.mem_cons_of_mem _ h)

theorem addLoop_keys_mono (warm : SymbolId → List Rat → RocState)
    (history : List (SymbolId × List Rat)) (d : List (SymbolId × SymbolData)) (s : SymbolId)
    (hs : s ∈ dictKeys d) :
    s ∈ dictKeys (history.foldl (MagicFormulaAlphaModel.addSymbolData warm) d) := by
  induction history generalizing d with
  | nil => exact hs
  | cons t ts ih =>
    rw [List.foldl_cons]
    apply ih
    unfold MagicFormulaAlphaModel.addSymbolData
    split
    · exact hs
    · unfold dictKeys
      rw [List.map_append]
      exact List.mem_append_left _ hs

theorem dictLookup_append_left {β : Type} (d e : List (SymbolId × β)) (s : SymbolId)
    (hs : s ∈ dictKeys d) : dictLookup (d ++ e) s = dictLookup d s := by
  unfold dictLookup
  rw [List.find?_append]
  rcases List.mem_map.mp hs with ⟨p, hp, hpe⟩
  have hsome : (d.find? (fun p => p.1 == s)).isSome := by
    rw [List.find?_isSome]
    exact ⟨p, hp, by simp [hpe]⟩
  rcases Option.isSome_iff_exists.mp hsome with ⟨v, hv⟩
  rw [hv]
  rfl

theorem addLoop_lookup (warm : SymbolId → List Rat → RocState)
    (history : List (SymbolId × List Rat)) (d : List (SymbolId × SymbolData)) (s : SymbolId)
    (hs : s ∈ dictKeys d) :
    dictLookup (history.foldl (MagicFormulaAlphaModel.addSymbolData warm) d) s
      = dictLookup d s := by
  induction history generalizing d with
  | nil => rfl
  | cons t ts ih =>
    rw [List.foldl_cons]
    have hstep : dictLookup (MagicFormulaAlphaModel.addSymbolData warm d t) s
        = dictLookup d s := by
      unfold MagicFormulaAlphaModel.addSymbolData
      split
      · rfl
      · exact dictLookup_append_left _ _ _ hs
    have hkeys : s ∈ dictKeys (MagicFormulaAlphaModel.addSymbolData warm d t) := by
      unfold MagicFormulaAlphaModel.addSymbolData
      split
      · exact hs
      · unfold dictKeys
        rw [List.map_append]
        exact List.mem_append_left _ hs
    rw [ih _ hkeys, hstep]

theorem dictLookup_filter {β : Type} (d : List (SymbolId × β)) (q : SymbolId × β → Bool)
    (s : SymbolId) (hq : ∀ p : SymbolId × β, p.1 = s → q p = true) :
    dictLookup (d.filter q) s = dictLookup d s := by
  induction d with
  | nil => rfl
  | cons p d ih =>
    by_cases hps : p.1 = s
    · rw [List.filter_cons, if_pos (hq p hps)]
      unfold dictLookup
      rw [List.find?_cons_of_pos _ (by simp [hps]), List.find?_cons_of_pos _ (by simp [hps])]
    · cases hqp : q p with
      | false =>
        rw [List.filter_cons, if_neg (by simp [hqp])]
        unfold dictLookup at ih ⊢
        rw [List.find?_cons_of_neg _ (by simp [hps])]
        exact ih
      | true =>
        rw [List.filter_cons, if_pos (by simp [hqp])]
        unfold dictLookup at ih ⊢
        rw [List.find?_cons_of_neg _ (by simp [hps]), List.find?_cons_of_neg _ (by simp [hps])]
        exact ih

theorem mem_keys_filter_of_not_removed {β : Type} (d : List (SymbolId × β))
    (removed : List SymbolId) (s : SymbolId)
    (hs : s ∈ dictKeys d) (hns : s ∉ removed) :
    s ∈ dictKeys (d.filter fun p => !decide (p.1 ∈ removed)) := by
  rcases List.mem_map.mp hs with ⟨p, hp, hpe⟩
  rw [← hpe]
  exact List.mem_map_of_mem Prod.fst (List.mem_filter.mpr ⟨hp, by simp [hpe, hns]⟩)

theorem not_mem_keys_filter_removed {β : Type} (d : List (SymbolId × β))
    (removed : List SymbolId) (r : SymbolId) (hr : r ∈ removed) :
    r ∉ dictKeys (d.filter fun p => !decide (p.1 ∈ removed)) := by
  intro h
  rcases List.mem_map.mp h with ⟨p, hp, hpe⟩
  have hq := (List.mem_filter.mp hp).2
  rw [hpe] at hq
  simp [hr] at hq

theorem MagicFormulaAlphaModel.onSecuritiesChanged_dict
    (m : MagicFormulaAlphaModel) (removedSecurities : List SymbolId)
    (history : List (SymbolId × List Rat)) (warm : SymbolId → List Rat → RocState) :
    (m.OnSecuritiesChanged removedSecurities history warm).symbolDataBySymbol
      = if history.isEmpty
        then m.symbolDataBySymbol.filter (fun p => !decide (p.1 ∈ removedSecurities))
        else history.foldl (addSymbolData warm)
          (m.symbolDataBySymbol.filter (fun p => !decide (p.1 ∈ removedSecurities))) := by
  simp only [MagicFormulaAlphaModel.OnSecuritiesChanged, foldl_dictPop_eq_filter]
  split <;> rfl

/-- C8: the bookkeeping dictionary of `MagicFormulaAlphaModel` starts empty
(vacuously well-keyed), `Update` and `OnSecuritiesChanged` both preserve
well-keyedness; after `OnSecuritiesChanged` no removed symbol remains a key
(given the host guarantee that a removed symbol does not also occur in the
added-securities history), and a key that survives keeps its exact
`SymbolData` record — it is never re-initialised. -/
theorem MagicFormulaAlphaModel.dict_invariant
    (m : MagicFormulaAlphaModel) (removedSecurities : List SymbolId)
    (history : List (SymbolId × List Rat)) (warm : SymbolId → List Rat → RocState)
    (hw : WellKeyed m.symbolDataBySymbol)
    (hdisj : ∀ r ∈ removedSecurities, r ∉ history.map Prod.fst) :
    WellKeyed ({} : MagicFormulaAlphaModel).symbolDataBySymbol
    ∧ WellKeyed m.Update.2.symbolDataBySymbol
    ∧ WellKeyed (m.OnSecuritiesChanged removedSecurities history warm).symbolDataBySymbol
    ∧ (∀ r ∈ removedSecurities,
        r ∉ dictKeys (m.OnSecuritiesChanged removedSecurities history warm).symbolDataBySymbol)
    ∧ (∀ s, s ∈ dictKeys m.symbolDataBySymbol → s ∉ removedSecurities →
        dictLookup (m.OnSecuritiesChanged removedSecurities history warm).symbolDataBySymbol s
          = dictLookup m.symbolDataBySymbol s) := by
  refine ⟨(fun p hp => nomatch hp), ?_, ?_, ?_, ?_⟩
  · rw [MagicFormulaAlphaModel.update_dict]
    intro p hp
    rcases List.mem_map.mp hp with ⟨q, hq, hqe⟩
    rw [← hqe]
    show q.2.CanEmit.2.Symbol = q.1
    rw [SymbolData.canEmit_symbol]
    exact hw q hq
  · rw [MagicFormulaAlphaModel.onSecuritiesChanged_dict]
    split
    · exact wellKeyed_filter _ _ hw
    · exact addLoop_wellKeyed _ _ _ (wellKeyed_filter _ _ hw)
  · intro r hr
    rw [MagicFormulaAlphaModel.onSecuritiesChanged_dict]
    split
    · exact not_mem_keys_filter_removed _ _ _ hr
    · intro h
      rcases addLoop_keys _ _ _ _ h with h | h
      · exact not_mem_keys_filter_removed _ _ _ hr h
      · exact hdisj r hr h
  · intro s hs hns
    rw [MagicFormulaAlphaModel.onSecuritiesChanged_dict]
    have hq : ∀ p : SymbolId × SymbolData, p.1 = s →
        (!decide (p.1 ∈ removedSecurities)) = true := by
      intro p hpe
      simp [hpe, hns]
    split
    · exact dictLookup_filter _ _ _ hq
    · rw [addLoop_lookup _ _ _ _ (mem_keys_filter_of_not_removed _ _ _ hs hns)]
      exact dictLookup_filter _ _ _ hq

/-- Indicator state used by the C8 witness. -/
def sampleRoc : RocState := { Samples := 0, IsReady := false, CurrentValue := 0 }

/-- Model state used by the C8 witness: one tracked symbol. -/
def sampleMagicModel : MagicFormulaAlphaModel :=
  { symbolDataBySymbol := [(5, SymbolData.init 5 sampleRoc)] }

/-- Closed instance of `dict_invariant`: symbol 5 is removed while symbol 6
arrives with history, and 5 is no longer a key afterwards. -/
theorem MagicFormulaAlphaModel.dict_invariant_witness :
    WellKeyed sampleMagicModel.symbolDataBySymbol
    ∧ (∀ r ∈ [(5 : SymbolId)], r ∉ ([((6 : SymbolId), ([] : List Rat))].map Prod.fst))
    ∧ (∀ r ∈ [(5 : SymbolId)],
        r ∉ dictKeys (sampleMagicModel.OnSecuritiesChanged [5] [(6, [])]
          (fun _ _ => sampleRoc)).symbolDataBySymbol) :=
  ⟨(fun p hp => by rcases List.mem_singleton.mp hp with rfl; rfl),
   by decide,
   (MagicFormulaAlphaModel.dict_invariant sampleMagicModel [5] [(6, [])] (fun _ _ => sampleRoc)
     (fun p hp => by rcases List.mem_singleton.mp hp with rfl; rfl)
     (by decide)).2.2.2.1⟩

/-- Closed instance of `RebalancingTripleLeveragedETFAlphaModel.etf_update_spec`:
two different slices produce the same insight list. -/
theorem RebalancingTripleLeveragedETFAlphaModel.etf_update_spec_witness :
    ({ ETFgroups := [{ ultraLong := 1, ultraShort := 2 }] }
        : RebalancingTripleLeveragedETFAlphaModel).Update { bars := [] }
      = ({ ETFgroups := [{ ultraLong := 1, ultraShort := 2 }] }
        : RebalancingTripleLeveragedETFAlphaModel).Update { bars := [(1, 3)] } :=
  (RebalancingTripleLeveragedETFAlphaModel.etf_update_spec
    { ETFgroups := [{ ultraLong := 1, ultraShort := 2 }] } { bars := [] }
    { bars := [(1, 3)] }).2.2

/-- Closed instance of `emptyHistorySkipsCycle` at concrete models. -/
theorem emptyHistorySkipsCycle_witness :
    ({} : LowVolatilitySelectionAlphaModel).Update [{ Symbol := 1, HasData := true }] true
        (fun _ => 0) = []
    ∧ ({} : MagicFormulaAlphaModel).OnSecuritiesChanged [] []
        (fun _ _ => { Samples := 0, IsReady := false, CurrentValue := 0 })
      = ({} : MagicFormulaAlphaModel) :=
  ⟨(emptyHistorySkipsCycle {} [{ Symbol := 1, HasData := true }] (fun _ => 0) {} []
      (fun _ _ => { Samples := 0, IsReady := false, CurrentValue := 0 })).1,
   (emptyHistorySkipsCycle {} [] (fun _ => 0) {} []
      (fun _ _ => { Samples := 0, IsReady := false, CurrentValue := 0 })).2.2⟩

/-- Closed instance of `SymbolData.CanEmit_spec`: after a check, `previous`
equals the current sample count. -/
theorem SymbolData.CanEmit_spec_witness :
    (SymbolData.init 4 { Samples := 3, IsReady := true, CurrentValue := 1 }).CanEmit.2.previous
      = ({ Samples := 3, IsReady := true, CurrentValue := 1 } : RocState).Samples :=
  (SymbolData.CanEmit_spec
    (SymbolData.init 4 { Samples := 3, IsReady := true, CurrentValue := 1 }) {}).2.1
